import Mathlib

/-!
Verification development for the HTML translation pipeline
(`translate.py`, `rate_controller.py`).

The Python sources are shallowly embedded:

* machine floats (timestamps, delays, similarity scores) become `ℚ`;
* Python exceptions become an explicit `PyErr` error type, raising code
  returns `Except PyErr _`;
* calls to the external completion service are oracles: a function from the
  attempt number to the decoded response (`as_json_obj` result), since the
  service response is external input;
* `difflib.SequenceMatcher(None, a, b).ratio()` is an external library
  similarity function, taken as a parameter `sim : String → String → ℚ`;
* the mutable DOM is a finite map from text-leaf positions
  (owning-element path, child index) to the current string content;
  `NavigableString.replace_with` becomes a pure update of that map;
* the `asyncio` event loop runs one coroutine at a time between awaits, and
  the rate controller's admissions are guarded by a single lock, so the
  stateful loops are embedded as sequential state-passing recursions.
-/

/-- Kinds of Python exception raised (or caught) in the embedded code. -/
inductive PyErr where
  /-- `AttributeError`, e.g. calling `.items()` on `None`. -/
  | attributeError
  /-- `KeyError` from `groups_map[i]` with a missing key. -/
  | keyError
  /-- `ValueError`, e.g. `int(k)` on a non-numeric string. -/
  | valueError
  /-- `IndexError` from list indexing out of range. -/
  | indexError
  deriving Repr, DecidableEq

/-! ## Rate controller (`rate_controller.py`)

Exception kinds in `backoff_on_errors` are identified by a natural number
tag (one tag per exception class; the classes passed by `openai_api_chat.py`
are unrelated leaf classes, so `isinstance` is tag equality). -/

/-- Constructor arguments of `RateController` that drive the retry loops
(`backoff_max_retry`, `backoff_init_delay`, `backoff_exp_base`,
`backoff_on_errors`). -/
structure RCConfig where
  maxRetry : ℕ
  initDelay : ℚ
  expBase : ℚ
  onErrors : List ℕ
  deriving Repr, DecidableEq

/-- Python `==` between a raised exception *instance* and an exception
*class* from the `backoff_on_errors` tuple.  Default object equality never
identifies an instance with a type object, so this is constantly `false`;
it embeds the test `e in self.backoff_on_errors` of `RateController._run`
(the tuple holds classes, `e` is an instance). -/
def pyExcInstEqType (_e _cls : ℕ) : Bool := false

/-- `e in self.backoff_on_errors` in `RateController._run`: tuple membership
by `==` of the instance against each class. -/
def inErrTuple (e : ℕ) (cls : List ℕ) : Bool := cls.any (pyExcInstEqType e)

/-- `any(isinstance(e, e_type) for e_type in self.backoff_on_errors)` in
`RateController._arun`. -/
def isinstAny (e : ℕ) (cls : List ℕ) : Bool := cls.any (fun c => e = c)

/-- Outcome of a retry loop: the wrapped call succeeded on attempt `i`
(0-based), or `Exception('Maximum retry reached: ...')` was raised wrapping
the last underlying failure's kind. -/
inductive RunOutcome where
  | ok (i : ℕ)
  | exhausted (k : ℕ)
  deriving Repr, DecidableEq

/-- Loop body of `RateController._arun`.  `att j = none` means the wrapped
`func` succeeds on attempt `j`; `att j = some k` means it raises an
exception of kind `k`.  `u j` is the value drawn by `random.uniform(-1, 1)`
on attempt `j`.  Arguments: remaining retries (`maxRetry - num_retry`),
attempt index, current `self.backoff_delay`.  Returns the outcome, the
final `self.backoff_delay`, and the list of waits passed to
`asyncio.sleep` in order. -/
def arunGo (cfg : RCConfig) (att : ℕ → Option ℕ) (u : ℕ → ℚ) :
    ℕ → ℕ → ℚ → RunOutcome × ℚ × List ℚ
  | 0, i, d =>
    match att i with
    | none => (RunOutcome.ok i, cfg.initDelay, [])
    | some k => (RunOutcome.exhausted k, d, [])
  | rem' + 1, i, d =>
    match att i with
    | none => (RunOutcome.ok i, cfg.initDelay, [])
    | some k =>
      if isinstAny k cfg.onErrors then
        let d' := min (d * (cfg.expBase + u i)) 300
        let next := arunGo cfg att u rem' (i + 1) d'
        (next.1, next.2.1, d :: next.2.2)
      else
        let next := arunGo cfg att u rem' (i + 1) d
        (next.1, next.2.1, cfg.initDelay :: next.2.2)

/-- `RateController._arun` (the cooperatively-suspending executor), run from
a controller whose shared `self.backoff_delay` currently holds `d0`. -/
def arun (cfg : RCConfig) (att : ℕ → Option ℕ) (u : ℕ → ℚ) (d0 : ℚ) :
    RunOutcome × ℚ × List ℚ :=
  arunGo cfg att u cfg.maxRetry 0 d0

/-- Loop body of `RateController._run` (the synchronous executor).  The
backoff delay is a local variable initialised from `backoff_init_delay`;
`time.sleep` happens only under `e in self.backoff_on_errors`.  Returns
outcome and the list of sleeps. -/
def runGo (cfg : RCConfig) (att : ℕ → Option ℕ) (u : ℕ → ℚ) :
    ℕ → ℕ → ℚ → RunOutcome × List ℚ
  | 0, i, _ =>
    match att i with
    | none => (RunOutcome.ok i, [])
    | some k => (RunOutcome.exhausted k, [])
  | rem' + 1, i, d =>
    match att i with
    | none => (RunOutcome.ok i, [])
    | some k =>
      if inErrTuple k cfg.onErrors then
        let next := runGo cfg att u rem' (i + 1) (d * (cfg.expBase + u i))
        (next.1, d :: next.2)
      else
        runGo cfg att u rem' (i + 1) d

/-- `RateController._run`. -/
def runSync (cfg : RCConfig) (att : ℕ → Option ℕ) (u : ℕ → ℚ) :
    RunOutcome × List ℚ :=
  runGo cfg att u cfg.maxRetry 0 cfg.initDelay

/-- Closed form of the waits performed by `_arun` over `m` consecutive
failures starting at attempt `i` with current backoff delay `d`: an
eligible failure waits the current delay, which is then multiplied by
`expBase + u i` and capped at 300; a non-eligible failure waits the
initial delay and leaves the backoff delay unchanged. -/
def sleepsSpec (cfg : RCConfig) (att : ℕ → Option ℕ) (u : ℕ → ℚ) :
    ℕ → ℕ → ℚ → List ℚ
  | 0, _, _ => []
  | m + 1, i, d =>
    match att i with
    | none => []
    | some k =>
      if isinstAny k cfg.onErrors then
        d :: sleepsSpec cfg att u m (i + 1) (min (d * (cfg.expBase + u i)) 300)
      else
        cfg.initDelay :: sleepsSpec cfg att u m (i + 1) d

/-! ### Sliding-window admission (`_ablock_by_rate`) -/

/-- The mutable admission state of one `RateController`: the FIFO queue
`self._sw` of up to `limit` admission timestamps (head = oldest), plus the
current value of the monotone wall clock `time.time()`. -/
structure RCState where
  window : List ℚ
  clock : ℚ
  deriving Repr, DecidableEq

/-- `RateController._ablock_by_rate`, executed while holding the
controller's lock.  `queue.Queue(maxsize=limit)` is full exactly when
`limit ≠ 0` and it holds `limit` items (`maxsize <= 0` means unbounded).
If full, the oldest timestamp is popped; if less than `period` has elapsed
since it, the caller sleeps for the remainder (advancing the clock), and
the post-sleep `time.time()` is pushed as the admission timestamp. -/
def ablock_by_rate (limit : ℕ) (period : ℚ) (s : RCState) : RCState :=
  let now := s.clock
  if limit ≠ 0 ∧ s.window.length = limit then
    match s.window with
    | [] => RCState.mk [now] now
    | last :: restW =>
      let lag := now - last
      let now2 := if lag < period then now + (period - lag) else now
      RCState.mk (restW ++ [now2]) now2
  else
    RCState.mk (s.window ++ [now]) now

/-- A serialized sequence of admissions through one controller: before each
call the clock advances by the caller's arrival gap `δ`, then
`_ablock_by_rate` runs under the lock.  Returns the pushed admission
timestamps in order. -/
def admitTrace (limit : ℕ) (period : ℚ) : List ℚ → RCState → List ℚ
  | [], _ => []
  | d :: ds, s =>
    let s1 := RCState.mk s.window (s.clock + d)
    let s2 := ablock_by_rate limit period s1
    s2.clock :: admitTrace limit period ds s2

/-- The concrete configuration exhibiting the sync/async divergence:
one retry allowed, initial delay 1, exponent base 2, one backoff-eligible
error kind (tag 7). -/
def cfgC3 : RCConfig := RCConfig.mk 1 1 2 [7]

/-- The wrapped operation of the C3 counterexample: every attempt raises an
exception of the backoff-eligible kind 7. -/
def attC3 : ℕ → Option ℕ := fun _ => some 7

/-- Jitter stream for the C3 counterexample (`random.uniform(-1,1)` = 0). -/
def uC3 : ℕ → ℚ := fun _ => 0

/-- Configuration for the C8 witness: two retries, initial delay 1,
base 2, eligible kind 7. -/
def cfgC8 : RCConfig := RCConfig.mk 2 1 2 [7]

/-- Operation for the C8 witness: attempts 0 and 1 raise kind 7, attempt 2
succeeds. -/
def attC8 : ℕ → Option ℕ := fun n => if n < 2 then some 7 else none

/-- Jitter stream for the C8 witness. -/
def uC8 : ℕ → ℚ := fun _ => 0

/-! ## Fit-back reconstruction (`translate.py`)

`as_json_obj` applied to a model response yields `None` or a decoded JSON
object; the decoded object (a `dict[str, str]`, insertion-ordered with
distinct keys) is embedded as `List (String × String)`.  Since the model
response is external input, each retry attempt's decoded object is an
oracle `att : ℕ → Option (List (String × String))`, where `att i = none`
covers both an undecodable response and a decoded empty object (both falsy
in the `if not shreds_out` check; the empty object is also handled
explicitly below). -/

/-- The characters removed by `match_score`'s `compact_tab`
(space, newline, tab, comma, full-width comma, period). -/
def compactChar (c : Char) : Bool :=
  c = ' ' ∨ c = '\n' ∨ c = '\t' ∨ c = ',' ∨ c = '，' ∨ c = '.'

/-- `s.translate(compact_tab).lower()` of `match_score`. -/
def pyCompactLower (s : String) : String :=
  ((s.toList.filter (fun c => ¬ compactChar c)).map Char.toLower).asString

/-- `match_score(s1, s2)`: normalize both strings, then apply the
`difflib.SequenceMatcher(None, _, _).ratio()` similarity `sim`
(an external library function, kept as a parameter). -/
def match_score (sim : String → String → ℚ) (s1 s2 : String) : ℚ :=
  sim (pyCompactLower s1) (pyCompactLower s2)

/-- Value of a digit string (helper for `pyToInt`). -/
def digitsVal (l : List Char) : ℕ :=
  l.foldl (fun acc c => acc * 10 + (c.toNat - 48)) 0

/-- Python `int(s)` restricted to the decoded JSON keys met here: an
optional sign followed by decimal digits parses; anything else raises
`ValueError` (`none`). -/
def pyToInt (s : String) : Option Int :=
  match s.toList with
  | [] => none
  | '-' :: rest =>
    if rest ≠ [] ∧ rest.all Char.isDigit then some (-(digitsVal rest : Int)) else none
  | '+' :: rest =>
    if rest ≠ [] ∧ rest.all Char.isDigit then some ((digitsVal rest : Int)) else none
  | l =>
    if l.all Char.isDigit then some ((digitsVal l : Int)) else none

/-- Python list indexing `l[i]` for a possibly negative `int` index:
`-len l ≤ i < len l` succeeds (negative indices count from the end),
anything else raises `IndexError` (`none`). -/
def pyIndex {α : Type} (l : List α) (i : Int) : Option α :=
  if 0 ≤ i then l[i.toNat]?
  else if (-i).toNat ≤ l.length then l[l.length - (-i).toNat]? else none

/-- A text-leaf position in the soup: the owning element (identified by its
path of child indices from the root) and the leaf's index in that
element's `contents`. -/
abbrev Pos := List ℕ × ℕ

/-- The mutable text content of the soup: the current string at every
text-leaf position.  Only text leaves are recorded; the pipeline never
changes the tag structure. -/
abbrev Soup := List (Pos × String)

/-- Whether the tree has a text leaf at position `p`. -/
def hasPos (t : Soup) (p : Pos) : Bool := t.any (fun kv => kv.1 = p)

/-- `ele.contents[cid].replace_with(v)`: replace the text at position `p`;
a missing position is an indexing error. -/
def replacePos (t : Soup) (p : Pos) (v : String) : Option Soup :=
  if hasPos t p then some (t.map (fun kv => if kv.1 = p then (p, v) else kv)) else none

/-- `InlineGroup` of `translate.py`: parallel lists of text shreds, child
indices and owning elements (elements are identified by their path). -/
structure InlineGroup where
  text_shreds : List String
  cids : List ℕ
  elements : List (List ℕ)
  deriving Repr, DecidableEq

/-- `str(group) = ''.join(self.text_shreds)`. -/
def strGroup (g : InlineGroup) : String := String.join g.text_shreds

/-- The `shreds_in` OrderedDict built by `restruct`:
`{str(i): shred for i, shred in enumerate(group.text_shreds)}`. -/
def shredsIn (g : InlineGroup) : List (String × String) :=
  g.text_shreds.enum.map (fun is => (toString is.1, is.2))

/-- `sorted(shreds_out.items(), key=lambda x: int(x[0]))`: evaluating
`int` on a non-numeric key raises `ValueError` (`none`); otherwise a
stable sort by the integer key (Python's sort is stable, as is
insertion sort). -/
def sortShredsOut (d : List (String × String)) :
    Option (List (String × String)) :=
  match d.mapM (fun kv => (pyToInt kv.1).map (fun i => (i, kv))) with
  | none => none
  | some keyed =>
    some ((List.insertionSort (fun x y => x.1 ≤ y.1) keyed).map (fun ik => ik.2))

/-- `validate_fit_in(shreds_in, trans_str, shreds_out)`: score 0 on a shred
count mismatch; otherwise concatenate the candidate's shreds in integer key
order and score the match against the translated text, with a non-empty
diagnostic when the score is not 1. -/
def validate_fit_in (sim : String → String → ℚ) (shreds_in : List (String × String))
    (trans_str : String) (shreds_out : List (String × String)) :
    Except PyErr (ℚ × String) :=
  if shreds_in.length ≠ shreds_out.length then
    Except.ok (0, "Length not match")
  else
    match sortShredsOut shreds_out with
    | none => Except.error PyErr.valueError
    | some sorted =>
      let fit_str := String.join (sorted.map (fun kv => kv.2))
      let score := match_score sim trans_str fit_str
      if score ≠ 1 then Except.ok (score, "String not match") else Except.ok (1, "")

/-- The retry loop of `restruct`, accumulating `fit_candidates`.  Fuel
counts the retries still allowed after a failed iteration (`max_retry`
initially; `retry > max_retry` breaks the loop).  On each iteration the
decoded response `att i` is checked (`None`/empty raises, as does a
non-decodable sort key inside `validate_fit_in`); a candidate is appended
whenever `validate_fit_in` returns, and the loop breaks early when the
validation diagnostic is empty. -/
def restructGo (sim : String → String → ℚ) (sIn : List (String × String))
    (trans : String) (att : ℕ → Option (List (String × String))) :
    ℕ → ℕ → List (ℚ × List (String × String))
  | 0, i =>
    match att i with
    | none => []
    | some d =>
      if d.isEmpty then []
      else
        match validate_fit_in sim sIn trans d with
        | Except.error _ => []
        | Except.ok se => [(se.1, d)]
  | rem + 1, i =>
    match att i with
    | none => restructGo sim sIn trans att rem (i + 1)
    | some d =>
      if d.isEmpty then restructGo sim sIn trans att rem (i + 1)
      else
        match validate_fit_in sim sIn trans d with
        | Except.error _ => restructGo sim sIn trans att rem (i + 1)
        | Except.ok se =>
          (se.1, d) ::
            (if se.2 = "" then [] else restructGo sim sIn trans att rem (i + 1))

/-- The `fit_candidates` list accumulated by `restruct` over its attempts
(`max_retry = 10`). -/
def restructCandidates (sim : String → String → ℚ) (g : InlineGroup)
    (trans : String) (att : ℕ → Option (List (String × String))) :
    List (ℚ × List (String × String)) :=
  restructGo sim (shredsIn g) trans att 10 0

/-- `max(fit_candidates, key=lambda x: x[0])`: Python's `max` keeps the
first element among equal maxima. -/
def pyMaxByScore (l : List (ℚ × List (String × String))) :
    Option (ℚ × List (String × String)) :=
  match l with
  | [] => none
  | x :: xs => some (xs.foldl (fun best y => if best.1 < y.1 then y else best) x)

/-- The replacement loop of `restruct`:
`for k, v in shreds_out.items(): cid = group.cids[int(k)];
ele = group.elements[int(k)]; ele.contents[cid].replace_with(v)`.
Replacements already performed stay in the tree when a later key raises. -/
def applyShreds (g : InlineGroup) : Soup → List (String × String) →
    Except PyErr Unit × Soup
  | tree, [] => (Except.ok (), tree)
  | tree, kv :: rest =>
    match pyToInt kv.1 with
    | none => (Except.error PyErr.valueError, tree)
    | some ik =>
      match pyIndex g.cids ik with
      | none => (Except.error PyErr.indexError, tree)
      | some cid =>
        match pyIndex g.elements ik with
        | none => (Except.error PyErr.indexError, tree)
        | some ele =>
          match replacePos tree (ele, cid) kv.2 with
          | none => (Except.error PyErr.indexError, tree)
          | some tree2 => applyShreds g tree2 rest

/-- `restruct(group, ori, trans)` (the `ori` argument only feeds the
prompt, i.e. the oracle `att`): pick the best-scoring candidate, apply it
to the tree, and return `'C'` when its score is below 1, `'S'` otherwise;
with no candidate at all return `'F'` and leave the tree untouched. -/
def restruct (sim : String → String → ℚ) (g : InlineGroup) (tree : Soup)
    (trans : String) (att : ℕ → Option (List (String × String))) :
    Except PyErr Char × Soup :=
  match pyMaxByScore (restructCandidates sim g trans att) with
  | some best =>
    let ap := applyShreds g tree best.2
    match ap.1 with
    | Except.ok _ => (Except.ok (if best.1 < 1 then 'C' else 'S'), ap.2)
    | Except.error e => (Except.error e, ap.2)
  | none => (Except.ok 'F', tree)

/-- `group_fit_in(group, ori, trans)`: `'S'` with no mutation when the
group's text already matches the translation; `'S'` after a direct
replacement for a single-shred group; otherwise delegate to `restruct`.
The boolean records whether the restructure model call path was taken. -/
def group_fit_in (sim : String → String → ℚ) (g : InlineGroup) (tree : Soup)
    (_ori trans : String) (att : ℕ → Option (List (String × String))) :
    Except PyErr Char × Soup × Bool :=
  if match_score sim (strGroup g) trans = 1 then
    (Except.ok 'S', tree, false)
  else if g.text_shreds.length = 1 then
    match g.elements.head?, g.cids.head? with
    | some e, some c =>
      match replacePos tree (e, c) trans with
      | some t2 => (Except.ok 'S', t2, false)
      | none => (Except.error PyErr.indexError, tree, false)
    | _, _ => (Except.error PyErr.indexError, tree, false)
  else
    let r := restruct sim g tree trans att
    (r.1, r.2, true)

/-! ### Shared concrete instances for witnesses and counterexamples -/

/-- A concrete admissible similarity instance: 1 on equal strings, 0
otherwise. -/
def simEq : String → String → ℚ := fun a b => if a = b then 1 else 0

/-- An oracle whose every response is undecodable. -/
def attNone : ℕ → Option (List (String × String)) := fun _ => none

/-- The group of the C4 witness: two shreds under the element at path `[0]`. -/
def gC4 : InlineGroup := InlineGroup.mk ["a", "b"] [0, 1] [[0], [0]]

/-- The soup of the C4 witness. -/
def treeC4 : Soup := [(([0], 0), "a"), (([0], 1), "b")]

/-- Oracle of the C4 witness: the first attempt decodes to an exactly
fitting candidate. -/
def attC4 : ℕ → Option (List (String × String)) :=
  fun n => if n = 0 then some [("0", "x"), ("1", "y")] else none

/-- The single-shred group of the C5 witness. -/
def gC5 : InlineGroup := InlineGroup.mk ["Settings"] [0] [[5]]

/-- The soup of the C5 witness. -/
def treeC5 : Soup := [(([5], 0), "Settings")]

/-! ### Restructure failure and raising behaviour (C9, C10) -/

/-- The two-shred group shared by the C9/C10 inputs: two text leaves
directly under the root. -/
def gC9 : InlineGroup := InlineGroup.mk ["a", "b"] [0, 1] [[], []]

/-- The soup shared by the C9/C10 inputs. -/
def treeC9 : Soup := [(([], 0), "a"), (([], 1), "b")]

/-- Oracle of the C9 counterexample: the first attempt decodes to a
candidate of the right shred count whose concatenation does not match the
translated text; later attempts are undecodable. -/
def attC9 : ℕ → Option (List (String × String)) :=
  fun n => if n = 0 then some [("0", "Q"), ("1", "R")] else none

/-- Oracle of the C10 counterexample: the only decodable attempt has the
negative key `"-1"`. -/
def attC10 : ℕ → Option (List (String × String)) :=
  fun n => if n = 0 then some [("0", "x"), ("-1", "y")] else none

/-- The list index Python resolves a (possibly negative) `int` index to. -/
def pyIdxOf (n : ℕ) (i : Int) : ℕ := if 0 ≤ i then i.toNat else n - (-i).toNat

/-! ## Segmenter (`segment_groups_map`) -/

/-- `sum([token_counter(str(g)) for g in groups_map.values()])`. -/
def tokensAll (token_counter : String → ℕ) (gm : List (String × InlineGroup)) : ℕ :=
  (gm.map (fun kv => token_counter (strGroup kv.2))).sum

/-- The packing loop of `segment_groups_map`: walk the groups in map order;
drop a group whose own token count exceeds `max_token`; when the running
token total already exceeds `len_seg` and the current segment is
non-empty, close the segment and start a new one; append the final segment
unconditionally. -/
def segLoop (token_counter : String → ℕ) (max_token len_seg : ℕ) :
    List (String × InlineGroup) → List (List (String × InlineGroup)) →
    List (String × InlineGroup) → ℕ → ℕ → List (List (String × InlineGroup))
  | [], ret, seg, _, _ => ret ++ [seg]
  | (_, g) :: rest, ret, seg, token_cnt, cnt =>
    let n := token_counter (strGroup g)
    if n > max_token then
      segLoop token_counter max_token len_seg rest ret seg token_cnt cnt
    else if token_cnt > len_seg ∧ seg ≠ [] then
      segLoop token_counter max_token len_seg rest (ret ++ [seg]) [(toString 0, g)] n 1
    else
      segLoop token_counter max_token len_seg rest ret
        (seg ++ [(toString cnt, g)]) (token_cnt + n) (cnt + 1)

/-- `segment_groups_map(groups_map, max_token, token_counter)`: empty when
the total token count is zero; otherwise `n_seg = ceil(total/max_token)`,
`len_seg = ceil(total/n_seg)` (exact ceiling division of the Python float
`math.ceil`), then the packing loop. -/
def segment_groups_map (gm : List (String × InlineGroup)) (max_token : ℕ)
    (token_counter : String → ℕ) : List (List (String × InlineGroup)) :=
  if tokensAll token_counter gm = 0 then []
  else
    let n_seg := (tokensAll token_counter gm + max_token - 1) / max_token
    let len_seg := (tokensAll token_counter gm + n_seg - 1) / n_seg
    segLoop token_counter max_token len_seg gm [] [] 0 0

/-- Token counter for the C6 witness: string length. -/
def strLen : String → ℕ := fun s => s.length

/-- Group map for the C6 witness: one small group and one oversized group. -/
def gmC6 : List (String × InlineGroup) :=
  [("0", InlineGroup.mk ["aa"] [0] [[]]), ("1", InlineGroup.mk ["bbbbbbbb"] [1] [[]])]

/-! ## Inline grouping extractor (`get_text_group_inline`)

The BeautifulSoup node tree is embedded as a mutual inductive: a node is a
text leaf (`NavigableString`), a comment, a doctype, or a tag with a
forest of children.  An element is identified by its path of child
indices from the root. -/

mutual

/-- A BeautifulSoup node. -/
inductive BNode where
  | text (s : String)
  | comment (s : String)
  | doctype (s : String)
  | tag (name : String) (children : BForest)

/-- `Tag.contents`: the ordered children of an element. -/
inductive BForest where
  | nil
  | cons (c : BNode) (rest : BForest)
end

/-- `is_inline_ele`: membership of the tag name in the fixed inline set. -/
def is_inline_ele (name : String) : Bool :=
  ([ "a", "abbr", "acronym", "b", "bdo", "big", "br", "button", "cite",
     "code", "dfn", "em", "i", "img", "input", "kbd", "label", "map",
     "object", "output", "q", "samp", "script", "select", "small", "span",
     "strong", "sub", "sup", "textarea", "time", "tt", "var" ] :
    List String).contains name

/-- `set(c).issubset({'\n', '\xa0'})`: the text is entirely made of the
ignorable characters (an empty string is ignorable too). -/
def ignorableText (s : String) : Bool :=
  s.toList.all (fun c => c = '\n' ∨ c = '\xA0')

/-- `c.replace('\n', '')`. -/
def stripNL (s : String) : String :=
  (s.toList.filter (fun c => c ≠ '\n')).asString

/-- One collected text shred: the `[c.replace('\n',''), cid, ele, cnt]`
list appended by `traversal` (the owning element as its path). -/
structure Shred where
  text : String
  cid : ℕ
  ele : List ℕ
  counter : ℕ
  deriving Repr, DecidableEq

/-- The nonlocal state of `traversal`: the discovery counter `cnt` and the
flushed groups `all_groups`. -/
structure TravSt where
  cnt : ℕ
  all_groups : List (List Shred)
  deriving Repr, DecidableEq

/-- The child loop of `traversal(ele)`, inlining the recursive call's
end-of-node wrap-up.  Arguments: the current element's path, its inline
classification, the index of the next child, the remaining children, the
nonlocal state and the running `group`.  Comments, doctypes and `script`
tags are skipped; a non-ignorable text child is appended to the running
group with the next discovery counter; an inline child tag's returned
shreds are merged into the running group; a block child tag flushes its
own pending group internally, and then a block parent flushes its running
group. -/
def travChildren : List ℕ → Bool → ℕ → BForest → TravSt → List Shred →
    TravSt × List Shred
  | _, _, _, BForest.nil, st, group => (st, group)
  | p, inline, cid, BForest.cons c rest, st, group =>
    match c with
    | BNode.comment _ => travChildren p inline (cid + 1) rest st group
    | BNode.doctype _ => travChildren p inline (cid + 1) rest st group
    | BNode.text s =>
      if ignorableText s then travChildren p inline (cid + 1) rest st group
      else
        travChildren p inline (cid + 1) rest (TravSt.mk (st.cnt + 1) st.all_groups)
          (group ++ [Shred.mk (stripNL s) cid p st.cnt])
    | BNode.tag nm ch =>
      if nm = "script" then travChildren p inline (cid + 1) rest st group
      else
        let inlineC := is_inline_ele nm
        let res := travChildren (p ++ [cid]) inlineC 0 ch st []
        if inlineC then
          travChildren p inline (cid + 1) rest res.1 (group ++ res.2)
        else
          let st2 := if res.2 ≠ [] then
              TravSt.mk res.1.cnt (res.1.all_groups ++ [res.2]) else res.1
          if inline = false ∧ group ≠ [] then
            travChildren p inline (cid + 1) rest
              (TravSt.mk st2.cnt (st2.all_groups ++ [group])) []
          else
            travChildren p inline (cid + 1) rest st2 group

/-- `traversal(element)` followed by the sort: run the child loop on the
root element, apply the root's end-of-node wrap-up (for an inline root the
pending group is returned to the caller and *discarded*, as in
`traversal(element)` on line 108 of `translate.py`), then sort the groups
by their first member's discovery counter (Python's stable `list.sort`,
embedded as a stable insertion sort). -/
def extractGroups (name : String) (children : BForest) : List (List Shred) :=
  let inline := is_inline_ele name
  let res := travChildren [] inline 0 children (TravSt.mk 0 []) []
  let st := if inline = false ∧ res.2 ≠ [] then
      TravSt.mk res.1.cnt (res.1.all_groups ++ [res.2]) else res.1
  List.insertionSort
    (fun g1 g2 => (g1.headD (Shred.mk "" 0 [] 0)).counter ≤
      (g2.headD (Shred.mk "" 0 [] 0)).counter) st.all_groups

/-- `get_text_group_inline(element)`: the sorted groups keyed `"0"`,
`"1"`, … in order, each projected to its three parallel lists. -/
def get_text_group_inline (name : String) (children : BForest) :
    List (String × InlineGroup) :=
  (extractGroups name children).enum.map
    (fun ig => (toString ig.1,
      InlineGroup.mk (ig.2.map Shred.text) (ig.2.map Shred.cid) (ig.2.map Shred.ele)))

/-- Reference traversal: the text leaves of the forest that the extractor
does not skip (no comments, doctypes, `script` subtrees or whitespace-only
text), in document order, with their child index, owning element path and
sequential discovery counter; also returns the next counter value. -/
def keptShreds : List ℕ → ℕ → ℕ → BForest → List Shred × ℕ
  | _, _, cnt, BForest.nil => ([], cnt)
  | p, cid, cnt, BForest.cons c rest =>
    match c with
    | BNode.comment _ => keptShreds p (cid + 1) cnt rest
    | BNode.doctype _ => keptShreds p (cid + 1) cnt rest
    | BNode.text s =>
      if ignorableText s then keptShreds p (cid + 1) cnt rest
      else
        let r := keptShreds p (cid + 1) (cnt + 1) rest
        (Shred.mk (stripNL s) cid p cnt :: r.1, r.2)
    | BNode.tag nm ch =>
      if nm = "script" then keptShreds p (cid + 1) cnt rest
      else
        let r1 := keptShreds (p ++ [cid]) 0 cnt ch
        let r2 := keptShreds p (cid + 1) r1.2 rest
        (r1.1 ++ r2.1, r2.2)

/-- The forest of the C7 witness: a kept text leaf, an inline `span` child
with a text leaf, and an ignorable newline leaf, under a block root. -/
def fC7 : BForest :=
  BForest.cons (BNode.text "x")
    (BForest.cons (BNode.tag "span" (BForest.cons (BNode.text "y") BForest.nil))
      (BForest.cons (BNode.text "\n") BForest.nil))

/-! ## Translation orchestrator (`translate_groups`, `translation_pipeline`) -/

/-- `groups_map[i]`. -/
def lookupKey (gm : List (String × InlineGroup)) (k : String) : Option InlineGroup :=
  (gm.find? (fun kv => kv.1 = k)).map (fun kv => kv.2)

/-- The task-creation loop of `translate_groups`: for each `(i, trans)` of
the decoded response object, look up `groups_map[i]` — a missing key
raises `KeyError` before any fit-in task runs.  Groups of the segment
whose keys are absent from the response are skipped silently. -/
def resolveTasks (gm : List (String × InlineGroup)) :
    List (String × String) → Except PyErr (List (String × InlineGroup × String))
  | [] => Except.ok []
  | (k, tr) :: rest =>
    match lookupKey gm k with
    | none => Except.error PyErr.keyError
    | some g =>
      match resolveTasks gm rest with
      | Except.error e => Except.error e
      | Except.ok ts => Except.ok ((k, g, tr) :: ts)

/-- `asyncio.gather(*fit_in_tasks, return_exceptions=True)`: run each
fit-in task, collecting its status or exception without propagation — one
entry per task unconditionally.  The `ori` string passed to each task is
`groups_in[i] = str(v).replace('\n','')`.  The groups mutate disjoint text
leaves (§5), so threading the soup sequentially is faithful. -/
def gatherFit (sim : String → String → ℚ)
    (attFor : String → ℕ → Option (List (String × String))) :
    Soup → List (String × InlineGroup × String) → List (Except PyErr Char) × Soup
  | tree, [] => ([], tree)
  | tree, (k, g, tr) :: rest =>
    let r := group_fit_in sim g tree (stripNL (strGroup g)) tr (attFor k)
    let rs := gatherFit sim attFor r.2.1 rest
    (r.1 :: rs.1, rs.2)

/-- `translate_groups(groups_map)` for one segment, with the decoded
primary translation response (`as_json_obj(response)`) supplied as
`parsed` and the per-group restructure oracles as `attFor`.  A parse
failure (`parsed = none`) raises `AttributeError` from
`None.items()`. -/
def translate_groups (sim : String → String → ℚ) (gm : List (String × InlineGroup))
    (tree : Soup) (parsed : Option (List (String × String)))
    (attFor : String → ℕ → Option (List (String × String))) :
    Except PyErr (List (Except PyErr Char) × Soup) :=
  match parsed with
  | none => Except.error PyErr.attributeError
  | some out =>
    match resolveTasks gm out with
    | Except.error e => Except.error e
    | Except.ok tasks => Except.ok (gatherFit sim attFor tree tasks)

/-- The initial text content of the soup: every text child's position and
string. -/
def treeOfGo : List ℕ → ℕ → BForest → Soup
  | _, _, BForest.nil => []
  | p, cid, BForest.cons c rest =>
    (match c with
     | BNode.text s => [((p, cid), s)]
     | BNode.tag _ ch => treeOfGo (p ++ [cid]) 0 ch
     | _ => []) ++ treeOfGo p (cid + 1) rest

/-- The initial text content of the whole soup. -/
def treeOf (children : BForest) : Soup := treeOfGo [] 0 children

/-- `asyncio.gather(*tasks)` over the segment tasks *without*
`return_exceptions=True`: the first raising segment task makes the whole
gather raise. -/
def gatherSegs (sim : String → String → ℚ)
    (attFor : ℕ → String → ℕ → Option (List (String × String)))
    (parsedFor : ℕ → Option (List (String × String))) :
    ℕ → Soup → List (List (String × InlineGroup)) →
    Except PyErr (List (List (Except PyErr Char)) × Soup)
  | _, tree, [] => Except.ok ([], tree)
  | idx, tree, seg :: rest =>
    match translate_groups sim seg tree (parsedFor idx) (attFor idx) with
    | Except.error e => Except.error e
    | Except.ok rt =>
      match gatherSegs sim attFor parsedFor (idx + 1) rt.2 rest with
      | Except.error e => Except.error e
      | Except.ok rs => Except.ok (rt.1 :: rs.1, rs.2)

/-- `translation_pipeline(soup)`: extract, segment, translate each segment
concurrently, flatten the per-group results. -/
def translation_pipeline (sim : String → String → ℚ) (name : String)
    (children : BForest) (maxTok : ℕ) (tc : String → ℕ)
    (parsedFor : ℕ → Option (List (String × String)))
    (attFor : ℕ → String → ℕ → Option (List (String × String))) :
    Except PyErr (List (Except PyErr Char) × Soup) :=
  let gm := get_text_group_inline name children
  let segs := segment_groups_map gm maxTok tc
  match gatherSegs sim attFor parsedFor 0 (treeOf children) segs with
  | Except.error e => Except.error e
  | Except.ok rs => Except.ok (rs.1.flatten, rs.2)

/-- The single group of the C1 witness. -/
def gC1 : InlineGroup := InlineGroup.mk ["hi"] [0] [[]]

/-- The group map of the C1 witness. -/
def gmC1 : List (String × InlineGroup) := [("0", gC1)]

/-- The soup of the C1 witness. -/
def treeC1 : Soup := [(([], 0), "hi")]

/-- Restructure oracles of the C1 witness (never consulted). -/
def attForC1 : String → ℕ → Option (List (String × String)) := fun _ _ => none

/-! ### Sliding-window admission theorem (C2) -/

lemma ablock_full_eq (limit : ℕ) (period : ℚ) (last : ℚ) (restW : List ℚ) (c : ℚ)
    (h1 : limit ≠ 0) (h2 : restW.length + 1 = limit) :
    ablock_by_rate limit period (RCState.mk (last :: restW) c) =
      RCState.mk (restW ++ [if c - last < period then c + (period - (c - last)) else c])
        (if c - last < period then c + (period - (c - last)) else c) := by
  simp only [ablock_by_rate]
  split
  · rfl
  · rename_i hcond
    exact absurd ⟨h1, by simpa using h2⟩ hcond

lemma ablock_push_eq (limit : ℕ) (period : ℚ) (w : List ℚ) (c : ℚ)
    (h : ¬ (limit ≠ 0 ∧ w.length = limit)) :
    ablock_by_rate limit period (RCState.mk w c) = RCState.mk (w ++ [c]) c := by
  simp only [ablock_by_rate]
  split
  · rename_i hcond
    exact absurd (by simpa using hcond) h
  · rfl

lemma admitTrace_slide (limit : ℕ) (period : ℚ) (hl : 0 < limit) :
    ∀ (ds : List ℚ) (pref : List ℚ) (s : RCState),
      s.window = pref.drop (pref.length - limit) →
      ∀ i a b,
        (pref ++ admitTrace limit period ds s)[i]? = some a →
        (pref ++ admitTrace limit period ds s)[i + limit]? = some b →
        pref.length ≤ i + limit →
        a + period ≤ b := by
  intro ds
  induction ds with
  | nil =>
    intro pref s _hw i a b _ha hb hle
    have hlt : i + limit < pref.length := by
      have hb2 : pref[i + limit]? = some b := by simpa [admitTrace] using hb
      obtain ⟨h, -⟩ := List.getElem?_eq_some.mp hb2
      exact h
    omega
  | cons d ds ih =>
    intro pref s hw i a b ha hb hle
    by_cases hfull : limit ≠ 0 ∧ s.window.length = limit
    · -- the queue is full: the oldest admission timestamp is popped
      have hplen : limit ≤ pref.length := by
        by_contra hcon
        have h1 : pref.length - limit = 0 := by omega
        have h2 : s.window.length = pref.length := by simp [hw, h1]
        omega
      obtain ⟨last, restW, hcons⟩ : ∃ last restW, s.window = last :: restW := by
        rcases hwin : s.window with _ | ⟨x, xs⟩
        · exfalso; rw [hwin] at hfull; simp at hfull; omega
        · exact ⟨x, xs, rfl⟩
      have hwlen : restW.length + 1 = limit := by
        have := hfull.2
        rw [hcons] at this
        simpa using this
      have hstep : ablock_by_rate limit period (RCState.mk s.window (s.clock + d)) =
          RCState.mk (restW ++
              [if s.clock + d - last < period then s.clock + d + (period - (s.clock + d - last))
                else s.clock + d])
            (if s.clock + d - last < period then s.clock + d + (period - (s.clock + d - last))
              else s.clock + d) := by
        rw [hcons]
        exact ablock_full_eq limit period last restW (s.clock + d) hfull.1 hwlen
      set now2 := if s.clock + d - last < period then s.clock + d + (period - (s.clock + d - last))
        else s.clock + d with hnow2
      have hkey : last + period ≤ now2 := by
        rw [hnow2]
        by_cases hlt : s.clock + d - last < period
        · rw [if_pos hlt]; linarith
        · rw [if_neg hlt]; linarith
      have hlast : pref[pref.length - limit]? = some last := by
        have h0 : (pref.drop (pref.length - limit))[0]? = some last := by
          rw [← hw, hcons]; simp
        rw [List.getElem?_drop] at h0
        simpa using h0
      have hsplit : pref ++ admitTrace limit period (d :: ds) s =
          (pref ++ [now2]) ++ admitTrace limit period ds (RCState.mk (restW ++ [now2]) now2) := by
        show pref ++ ((ablock_by_rate limit period (RCState.mk s.window (s.clock + d))).clock ::
          admitTrace limit period ds (ablock_by_rate limit period (RCState.mk s.window (s.clock + d)))) = _
        rw [hstep]
        simp
      have hinv : (RCState.mk (restW ++ [now2]) now2).window =
          (pref ++ [now2]).drop ((pref ++ [now2]).length - limit) := by
        have hn : (pref ++ [now2]).length - limit = pref.length - limit + 1 := by
          simp; omega
        have h2 : pref.drop (pref.length - limit + 1) = restW := by
          rw [← List.tail_drop, ← hw, hcons]
          rfl
        rw [hn, List.drop_append_eq_append_drop]
        have h1 : pref.length - limit + 1 - pref.length = 0 := by omega
        rw [h1, h2]
        rfl
      rcases Nat.lt_or_ge (i + limit) (pref.length + 1) with hcase | hcase
      · -- i + limit = pref.length : this pair is the popped oldest and the fresh admission
        have heq : i + limit = pref.length := by omega
        have hi : i = pref.length - limit := by omega
        have hb2 : b = now2 := by
          rw [hsplit] at hb
          rw [List.getElem?_append_left (by simp; omega)] at hb
          rw [heq] at hb
          rw [List.getElem?_append_right (by simp)] at hb
          simp at hb
          exact hb.symm
        have ha2 : a = last := by
          rw [hsplit] at ha
          have hilt : i < pref.length := by omega
          rw [List.getElem?_append_left (by simp; omega)] at ha
          rw [List.getElem?_append_left hilt] at ha
          rw [hi, hlast] at ha
          exact (Option.some_inj.mp ha).symm
        rw [ha2, hb2]
        exact hkey
      · refine ih (pref ++ [now2]) (RCState.mk (restW ++ [now2]) now2) hinv i a b ?_ ?_ ?_
        · rw [← hsplit]; exact ha
        · rw [← hsplit]; exact hb
        · simp; omega
    · -- queue not yet full: the timestamp is just pushed
      have hz : limit ≠ 0 := by omega
      have hplen : pref.length < limit := by
        by_contra hcon
        exact hfull ⟨hz, by rw [hw]; simp; omega⟩
      have hw0 : s.window = pref := by
        rw [hw]
        have h0 : pref.length - limit = 0 := by omega
        simp [h0]
      have hstep : ablock_by_rate limit period (RCState.mk s.window (s.clock + d)) =
          RCState.mk (pref ++ [s.clock + d]) (s.clock + d) := by
        rw [hw0]
        exact ablock_push_eq limit period pref (s.clock + d)
          (by rw [hw0] at hfull; exact hfull)
      set now := s.clock + d with hnow
      have hsplit : pref ++ admitTrace limit period (d :: ds) s =
          (pref ++ [now]) ++ admitTrace limit period ds (RCState.mk (pref ++ [now]) now) := by
        show pref ++ ((ablock_by_rate limit period (RCState.mk s.window (s.clock + d))).clock ::
          admitTrace limit period ds (ablock_by_rate limit period (RCState.mk s.window (s.clock + d)))) = _
        rw [hstep]
        simp
      have hinv : (RCState.mk (pref ++ [now]) now).window =
          (pref ++ [now]).drop ((pref ++ [now]).length - limit) := by
        have h0 : (pref ++ [now]).length - limit = 0 := by simp; omega
        rw [h0]
        rfl
      refine ih (pref ++ [now]) (RCState.mk (pref ++ [now]) now) hinv i a b ?_ ?_ ?_
      · rw [← hsplit]; exact ha
      · rw [← hsplit]; exact hb
      · simp; omega

/-- Claim C2: for every serialized sequence of admissions through one
`RateController` with `limit = N > 0` and `period = T`, any two admission
timestamps `N` apart are at least `T` apart — hence no `N + 1` admissions
ever fall inside a trailing window shorter than `T`.  Admission checks and
timestamp updates run under the controller's single lock (`_arun` holds
`self._a_lock` around `_ablock_by_rate`), which is what the serialized
trace `admitTrace` models. -/
theorem C2_sliding_window (limit : ℕ) (period : ℚ) (hl : 0 < limit)
    (ds : List ℚ) (t0 : ℚ) (i : ℕ) (a b : ℚ)
    (ha : (admitTrace limit period ds (RCState.mk [] t0))[i]? = some a)
    (hb : (admitTrace limit period ds (RCState.mk [] t0))[i + limit]? = some b) :
    a + period ≤ b := by
  refine admitTrace_slide limit period hl ds [] (RCState.mk [] t0) (by simp) i a b ?_ ?_ ?_
  · simpa using ha
  · simpa using hb
  · simp

/-- Witness for C2 at a concrete input: `limit = 1`, `period = 5`, two
back-to-back calls starting at time 0 are admitted at times 0 and 5. -/
theorem C2_sliding_window_witness :
    (0 : ℚ) < 1 ∧ (0 : ℚ) + 5 ≤ 5 := by
  have h1 : (admitTrace 1 5 [0, 0] (RCState.mk [] 0)) = [0, 5] := by
    norm_num [admitTrace, ablock_by_rate]
  refine ⟨by norm_num, ?_⟩
  exact C2_sliding_window 1 5 (by norm_num) [0, 0] 0 0 0 5 (by rw [h1]; rfl) (by rw [h1]; rfl)

/-! ### Sync vs async executor (C3) -/

lemma runGo_outcome_and_sleeps (cfg : RCConfig) (att : ℕ → Option ℕ) (u : ℕ → ℚ) :
    ∀ rem i d d', (arunGo cfg att u rem i d).1 = (runGo cfg att u rem i d').1 ∧
      (runGo cfg att u rem i d').2 = [] := by
  intro rem
  induction rem with
  | zero =>
    intro i d d'
    cases h : att i <;> simp [arunGo, runGo, h]
  | succ rem ih =>
    intro i d d'
    cases h : att i with
    | none => simp [arunGo, runGo, h]
    | some k =>
      have hsync : inErrTuple k cfg.onErrors = false := by
        simp [inErrTuple, pyExcInstEqType]
      by_cases hel : isinstAny k cfg.onErrors
      · simp only [arunGo, runGo, h, hsync, hel, if_true, if_false, Bool.false_eq_true]
        exact ih (i + 1) (min (d * (cfg.expBase + u i)) 300) d'
      · simp only [arunGo, runGo, h, hsync, hel, if_false, Bool.false_eq_true]
        exact ih (i + 1) d d'

/-- Counterexample to C3: with an always-failing operation whose error kind
is in `backoff_on_errors`, the cooperatively-suspending executor waits the
backoff delay (sleep list `[1]`) before its retry, while the synchronous
executor performs no wait at all (its eligibility test `e in
self.backoff_on_errors` compares the exception instance with the exception
classes and never holds) — so the two forms do not share identical
rate/backoff semantics. -/
theorem C3_counterexample :
    (arun cfgC3 attC3 uC3 cfgC3.initDelay).2.2 = [1] ∧
    (runSync cfgC3 attC3 uC3).2 = [] ∧ ([1] : List ℚ) ≠ [] := by
  refine ⟨?_, ?_, by simp⟩
  · norm_num [arun, arunGo, attC3, uC3, cfgC3, isinstAny]
  · norm_num [runSync, runGo, attC3, uC3, cfgC3, inErrTuple, pyExcInstEqType]

/-- Amended C3: the two executor forms agree only on retry counting — for
every configuration, operation and jitter stream they succeed on the same
attempt or raise the retries-exhausted error wrapping the same last
failure.  Their waiting semantics differ: the synchronous form's
backoff-eligibility test (`e in self.backoff_on_errors`, an instance
compared against classes) never holds, so it performs no wait between
retries, applies no growth and no cap, while the asynchronous form waits
before every retry. -/
theorem C3_sync_async_agree_on_outcome_only (cfg : RCConfig)
    (att : ℕ → Option ℕ) (u : ℕ → ℚ) (d0 : ℚ) :
    (arun cfg att u d0).1 = (runSync cfg att u).1 ∧
    (runSync cfg att u).2 = [] := by
  exact runGo_outcome_and_sleeps cfg att u cfg.maxRetry 0 d0 cfg.initDelay

/-! ### Async retry/backoff semantics (C8) -/

lemma arunGo_ok_spec (cfg : RCConfig) (att : ℕ → Option ℕ) (u : ℕ → ℚ) :
    ∀ m rem i d, m ≤ rem →
      (∀ j, j < m → att (i + j) ≠ none) → att (i + m) = none →
      arunGo cfg att u rem i d =
        (RunOutcome.ok (i + m), cfg.initDelay, sleepsSpec cfg att u m i d) := by
  intro m
  induction m with
  | zero =>
    intro rem i d _ _ hsucc
    simp only [Nat.add_zero] at hsucc
    cases rem <;> simp [arunGo, sleepsSpec, hsucc]
  | succ m ih =>
    intro rem i d hrem hfail hsucc
    obtain ⟨k, hk⟩ : ∃ k, att i = some k := by
      have h0 := hfail 0 (by omega)
      simp only [Nat.add_zero] at h0
      cases h : att i
      · exact absurd h h0
      · exact ⟨_, rfl⟩
    obtain ⟨rem', rfl⟩ : ∃ rem', rem = rem' + 1 := ⟨rem - 1, by omega⟩
    have hfail' : ∀ j, j < m → att (i + 1 + j) ≠ none := by
      intro j hj
      have := hfail (j + 1) (by omega)
      simpa [Nat.add_assoc, Nat.add_comm 1 j] using this
    have hsucc' : att (i + 1 + m) = none := by
      have h : i + 1 + m = i + (m + 1) := by omega
      rw [h]; exact hsucc
    have harith : i + 1 + m = i + (m + 1) := by omega
    by_cases hel : isinstAny k cfg.onErrors
    · have hnext := ih rem' (i + 1) (min (d * (cfg.expBase + u i)) 300) (by omega) hfail' hsucc'
      simp only [arunGo, hk, hel, if_true, sleepsSpec, hnext, harith]
    · have hnext := ih rem' (i + 1) d (by omega) hfail' hsucc'
      simp only [arunGo, hk, hel, if_false, Bool.false_eq_true, sleepsSpec, hnext, harith]

lemma arunGo_exhaust_spec (cfg : RCConfig) (att : ℕ → Option ℕ) (u : ℕ → ℚ) :
    ∀ rem i d, (∀ j, j ≤ rem → att (i + j) ≠ none) →
      ∃ k dfin, att (i + rem) = some k ∧
        arunGo cfg att u rem i d =
          (RunOutcome.exhausted k, dfin, sleepsSpec cfg att u rem i d) := by
  intro rem
  induction rem with
  | zero =>
    intro i d hfail
    obtain ⟨k, hk⟩ : ∃ k, att i = some k := by
      have h0 := hfail 0 (by omega)
      simp only [Nat.add_zero] at h0
      cases h : att i
      · exact absurd h h0
      · exact ⟨_, rfl⟩
    refine ⟨k, d, by simpa using hk, ?_⟩
    simp [arunGo, sleepsSpec, hk]
  | succ rem ih =>
    intro i d hfail
    obtain ⟨k0, hk0⟩ : ∃ k, att i = some k := by
      have h0 := hfail 0 (by omega)
      simp only [Nat.add_zero] at h0
      cases h : att i
      · exact absurd h h0
      · exact ⟨_, rfl⟩
    have hfail' : ∀ j, j ≤ rem → att (i + 1 + j) ≠ none := by
      intro j hj
      have := hfail (j + 1) (by omega)
      simpa [Nat.add_assoc, Nat.add_comm 1 j] using this
    have harith : i + 1 + rem = i + (rem + 1) := by omega
    by_cases hel : isinstAny k0 cfg.onErrors
    · obtain ⟨k, dfin, hk, hnext⟩ := ih (i + 1) (min (d * (cfg.expBase + u i)) 300) hfail'
      refine ⟨k, dfin, by rw [← harith]; exact hk, ?_⟩
      simp only [arunGo, hk0, hel, if_true, sleepsSpec, hnext]
    · obtain ⟨k, dfin, hk, hnext⟩ := ih (i + 1) d hfail'
      refine ⟨k, dfin, by rw [← harith]; exact hk, ?_⟩
      simp only [arunGo, hk0, hel, if_false, Bool.false_eq_true, sleepsSpec, hnext]

/-- Claim C8: in `_arun`, a success resets the shared backoff delay to its
initial value; the waits before the retries follow `sleepsSpec` — a
backoff-eligible failure (by `isinstance` against `backoff_on_errors`)
waits the current backoff delay, which is then multiplied by
`backoff_exp_base + uniform(-1,1)` and capped at 300, while a non-eligible
failure waits the initial delay; and once the attempt count exceeds
`backoff_max_retry`, the executor raises the retries-exhausted error
wrapping the kind of the last underlying failure. -/
theorem C8_arun_backoff (cfg : RCConfig) (att : ℕ → Option ℕ) (u : ℕ → ℚ) (d0 : ℚ) :
    (∀ m, m ≤ cfg.maxRetry → (∀ j, j < m → att j ≠ none) → att m = none →
      arun cfg att u d0 = (RunOutcome.ok m, cfg.initDelay, sleepsSpec cfg att u m 0 d0)) ∧
    ((∀ j, j ≤ cfg.maxRetry → att j ≠ none) →
      ∃ k dfin, att cfg.maxRetry = some k ∧
        arun cfg att u d0 =
          (RunOutcome.exhausted k, dfin, sleepsSpec cfg att u cfg.maxRetry 0 d0)) := by
  constructor
  · intro m hm hfail hsucc
    have h := arunGo_ok_spec cfg att u m cfg.maxRetry 0 d0 hm
      (by intro j hj; simpa using hfail j hj) (by simpa using hsucc)
    simpa [arun] using h
  · intro hfail
    obtain ⟨k, dfin, hk, h⟩ := arunGo_exhaust_spec cfg att u cfg.maxRetry 0 d0
      (by intro j hj; simpa using hfail j hj)
    exact ⟨k, dfin, by simpa using hk, by simpa [arun] using h⟩

/-- Witness for C8: two eligible failures then a success wait 1 and 2
seconds, succeed on attempt 2 and leave the backoff delay reset to 1. -/
theorem C8_arun_backoff_witness :
    arun cfgC8 attC8 uC8 1 = (RunOutcome.ok 2, (1 : ℚ), [1, 2]) := by
  have h := (C8_arun_backoff cfgC8 attC8 uC8 1).1 2 (by norm_num [cfgC8])
    (by intro j hj; simp [attC8, hj])
    (by simp [attC8])
  rw [h]
  norm_num [sleepsSpec, attC8, uC8, cfgC8, isinstAny]

lemma simEq_le_one : ∀ a b, simEq a b ≤ 1 := by
  intro a b
  unfold simEq
  split <;> norm_num

/-! ### Candidate selection (C4) -/

lemma validate_score_le (sim : String → String → ℚ) (hsim : ∀ a b, sim a b ≤ 1)
    (sIn : List (String × String)) (trans : String) (d : List (String × String))
    (se : ℚ × String) (h : validate_fit_in sim sIn trans d = Except.ok se) :
    se.1 ≤ 1 := by
  unfold validate_fit_in at h
  split at h
  · simp only [Except.ok.injEq] at h
    rw [← h]
    norm_num
  · split at h
    · cases h
    · dsimp only at h
      split at h
      · simp only [Except.ok.injEq] at h
        rw [← h]
        exact hsim _ _
      · simp only [Except.ok.injEq] at h
        rw [← h]

lemma restructGo_score_le (sim : String → String → ℚ) (hsim : ∀ a b, sim a b ≤ 1)
    (sIn : List (String × String)) (trans : String)
    (att : ℕ → Option (List (String × String))) :
    ∀ rem i sc d, (sc, d) ∈ restructGo sim sIn trans att rem i → sc ≤ 1 := by
  intro rem
  induction rem with
  | zero =>
    intro i sc d h
    unfold restructGo at h
    split at h
    · simp at h
    · split at h
      · simp at h
      · split at h
        · simp at h
        · rename_i se hval
          simp only [List.mem_singleton, Prod.mk.injEq] at h
          rw [h.1]
          exact validate_score_le sim hsim sIn trans _ se hval
  | succ rem ih =>
    intro i sc d h
    unfold restructGo at h
    split at h
    · exact ih _ _ _ h
    · split at h
      · exact ih _ _ _ h
      · split at h
        · exact ih _ _ _ h
        · rename_i se hval
          rcases List.mem_cons.mp h with h2 | h2
          · rw [(Prod.mk.injEq _ _ _ _).mp h2 |>.1]
            exact validate_score_le sim hsim sIn trans _ se hval
          · split at h2
            · simp at h2
            · exact ih _ _ _ h2

lemma foldlBest_mem :
    ∀ (xs : List (ℚ × List (String × String))) (x : ℚ × List (String × String)),
      xs.foldl (fun best y => if best.1 < y.1 then y else best) x = x ∨
      xs.foldl (fun best y => if best.1 < y.1 then y else best) x ∈ xs := by
  intro xs
  induction xs with
  | nil =>
    intro x
    left
    rfl
  | cons y ys ih =>
    intro x
    rw [List.foldl_cons]
    rcases ih (if x.1 < y.1 then y else x) with h | h
    · by_cases hxy : x.1 < y.1
      · right
        rw [h, if_pos hxy]
        exact List.mem_cons_self _ _
      · left
        rw [h, if_neg hxy]
    · right
      exact List.mem_cons_of_mem _ h

lemma pyMaxByScore_mem (l : List (ℚ × List (String × String)))
    (x : ℚ × List (String × String)) (h : pyMaxByScore l = some x) : x ∈ l := by
  cases l with
  | nil => simp [pyMaxByScore] at h
  | cons a as =>
    simp only [pyMaxByScore, Option.some.injEq] at h
    rcases foldlBest_mem as a with h2 | h2
    · rw [← h, h2]
      exact List.mem_cons_self _ _
    · rw [← h]
      exact List.mem_cons_of_mem _ h2

/-- Claim C4: `restruct` selects the maximum-scoring candidate accumulated
over its retry attempts; when at least one candidate exists it applies that
candidate to the tree (substituting each shred at its assigned index) and
returns Success exactly when the selected score is 1.0 and Compromise
otherwise; with no candidate it returns Fail and leaves the tree
unmodified.  (`hsim` records that the external `difflib` ratio lies below
1; the apply-step hypothesis restricts to candidates whose keys index the
group, the raising behaviour outside that range being claim C10's
subject.) -/
theorem C4_restruct_best_candidate (sim : String → String → ℚ)
    (hsim : ∀ a b, sim a b ≤ 1) (g : InlineGroup) (tree : Soup) (trans : String)
    (att : ℕ → Option (List (String × String))) :
    (restructCandidates sim g trans att = [] →
      restruct sim g tree trans att = (Except.ok 'F', tree)) ∧
    (∀ sc d t2, pyMaxByScore (restructCandidates sim g trans att) = some (sc, d) →
      applyShreds g tree d = (Except.ok (), t2) →
      restruct sim g tree trans att =
        (Except.ok (if sc = 1 then 'S' else 'C'), t2)) := by
  constructor
  · intro h
    simp [restruct, h, pyMaxByScore]
  · intro sc d t2 hmax happ
    have hmem := pyMaxByScore_mem _ _ hmax
    have hle : sc ≤ 1 := restructGo_score_le sim hsim _ trans att 10 0 sc d hmem
    simp only [restruct, hmax, happ]
    by_cases hsc : sc = 1
    · simp [hsc]
    · have hlt : sc < 1 := lt_of_le_of_ne hle hsc
      simp [hsc, hlt]

/-- Witness for C4 at a concrete input: an exact first candidate is applied
and yields Success. -/
theorem C4_restruct_best_candidate_witness :
    restruct simEq gC4 treeC4 "xy" attC4 =
      (Except.ok 'S', [(([0], 0), "x"), (([0], 1), "y")]) := by
  have h := (C4_restruct_best_candidate simEq simEq_le_one gC4 treeC4 "xy" attC4).2 1
    [("0", "x"), ("1", "y")] [(([0], 0), "x"), (([0], 1), "y")] (by rfl) (by rfl)
  simpa using h

/-- Claim C5: `group_fit_in` returns Success with no tree mutation when the
match score of the group's text against the translation is 1.0; otherwise,
for a group with exactly one text shred, it replaces that shred's content
with the translated text in place and returns Success — in both cases
without invoking the restructure model call. -/
theorem C5_group_fit_in_trivial (sim : String → String → ℚ) (g : InlineGroup)
    (tree : Soup) (ori trans : String)
    (att : ℕ → Option (List (String × String))) :
    (match_score sim (strGroup g) trans = 1 →
      group_fit_in sim g tree ori trans att = (Except.ok 'S', tree, false)) ∧
    (match_score sim (strGroup g) trans ≠ 1 → g.text_shreds.length = 1 →
      ∀ e c t2, g.elements = [e] → g.cids = [c] →
        replacePos tree (e, c) trans = some t2 →
        group_fit_in sim g tree ori trans att = (Except.ok 'S', t2, false)) := by
  constructor
  · intro h
    simp [group_fit_in, h]
  · intro h hlen e c t2 he hc hrep
    simp [group_fit_in, h, hlen, he, hc, hrep]

/-- Witness for C5 at the spec's concrete input: a single-shred group
`["Settings"]` with translation `"Einstellungen"` gets replaced in place
with status Success and no model call. -/
theorem C5_group_fit_in_trivial_witness :
    group_fit_in simEq gC5 treeC5 "Settings" "Einstellungen" attNone =
      (Except.ok 'S', [(([5], 0), "Einstellungen")], false) := by
  exact (C5_group_fit_in_trivial simEq gC5 treeC5 "Settings" "Einstellungen" attNone).2
    (by decide) (by rfl) [5] 0 [(([5], 0), "Einstellungen")] (by rfl) (by rfl) (by rfl)

/-- Counterexample to C9: a multi-shred group where no attempt's candidate
concatenation ever matches the translated text still returns Compromise —
not Fail — and mutates the tree, because any retained candidate (here the
non-matching score-0 one) is applied. -/
theorem C9_counterexample :
    group_fit_in simEq gC9 treeC9 "ab" "XY" attC9 =
      (Except.ok 'C', [(([], 0), "Q"), (([], 1), "R")], true) ∧
    ([(([], 0), "Q"), (([], 1), "R")] : Soup) ≠ treeC9 := by
  exact ⟨rfl, by decide⟩

lemma restructGo_nil (sim : String → String → ℚ) (sIn : List (String × String))
    (trans : String) (att : ℕ → Option (List (String × String)))
    (hatt : ∀ i d, att i = some d → d ≠ [] →
      ∃ e, validate_fit_in sim sIn trans d = Except.error e) :
    ∀ rem i, restructGo sim sIn trans att rem i = [] := by
  intro rem
  induction rem with
  | zero =>
    intro i
    unfold restructGo
    cases hai : att i with
    | none => rfl
    | some d =>
      by_cases hde : d.isEmpty
      · simp [hde]
      · obtain ⟨e, he⟩ := hatt i d hai (by simpa using hde)
        simp [hde, he]
  | succ rem ih =>
    intro i
    unfold restructGo
    cases hai : att i with
    | none => exact ih (i + 1)
    | some d =>
      by_cases hde : d.isEmpty
      · simpa [hde] using ih (i + 1)
      · obtain ⟨e, he⟩ := hatt i d hai (by simpa using hde)
        simpa [hde, he] using ih (i + 1)

/-- Amended C9: for a multi-shred group, when no restructure attempt ever
produces a decodable, non-empty candidate that survives validation's key
sort within the retry ceiling, the fit-back status is Fail and the tree is
left unmodified.  (The original claim demanded Fail already when no
candidate's *concatenation matched*; `C9_counterexample` shows a retained
non-matching candidate yields Compromise with mutation instead.) -/
theorem C9_fail_without_candidates (sim : String → String → ℚ) (g : InlineGroup)
    (tree : Soup) (ori trans : String)
    (att : ℕ → Option (List (String × String)))
    (hms : match_score sim (strGroup g) trans ≠ 1)
    (hlen : g.text_shreds.length ≠ 1)
    (hatt : ∀ i d, att i = some d → d ≠ [] →
      ∃ e, validate_fit_in sim (shredsIn g) trans d = Except.error e) :
    group_fit_in sim g tree ori trans att = (Except.ok 'F', tree, true) := by
  have hnil : restructCandidates sim g trans att = [] :=
    restructGo_nil sim (shredsIn g) trans att hatt 10 0
  simp [group_fit_in, hms, hlen, restruct, restructCandidates] at hnil ⊢
  simp [hnil, pyMaxByScore]

/-- Witness for the amended C9: every attempt undecodable, status Fail,
tree untouched. -/
theorem C9_fail_without_candidates_witness :
    group_fit_in simEq gC9 treeC9 "ab" "ZZ" attNone = (Except.ok 'F', treeC9, true) := by
  refine C9_fail_without_candidates simEq gC9 treeC9 "ab" "ZZ" attNone
    (by decide) (by decide) ?_
  intro i d h
  simp [attNone] at h

/-- Counterexample to C10: the selected candidate's key `"-1"` does not
parse as an integer in `[0, len(group))`, yet `restruct` returns a status
without raising — Python's negative indexing makes
`group.cids[int("-1")]` succeed. -/
theorem C10_counterexample :
    restruct simEq gC9 treeC9 "XY" attC10 =
      (Except.ok 'C', [(([], 0), "x"), (([], 1), "y")]) ∧
    pyMaxByScore (restructCandidates simEq gC9 "XY" attC10) =
      some (0, [("0", "x"), ("-1", "y")]) ∧
    ¬ ∃ i : Int, pyToInt "-1" = some i ∧ 0 ≤ i ∧ i < 2 := by
  refine ⟨rfl, rfl, ?_⟩
  rintro ⟨i, hi, h0, -⟩
  have hval : pyToInt "-1" = some (-1) := rfl
  rw [hval] at hi
  have hi2 : (-1 : Int) = i := Option.some_inj.mp hi
  omega

lemma pyIndex_eq {α : Type} (l : List α) (i : Int) :
    pyIndex l i =
      if -(l.length : Int) ≤ i ∧ i < l.length then l[pyIdxOf l.length i]? else none := by
  unfold pyIndex pyIdxOf
  by_cases h0 : 0 ≤ i
  · rw [if_pos h0]
    by_cases h2 : i < l.length
    · rw [if_pos ⟨by omega, h2⟩, if_pos h0]
    · rw [if_neg (by omega)]
      apply List.getElem?_eq_none
      omega
  · rw [if_neg h0]
    by_cases h1 : (-i).toNat ≤ l.length
    · rw [if_pos h1, if_pos (by omega), if_neg h0]
    · rw [if_neg h1, if_neg (by omega)]

lemma pyIdxOf_lt (n : ℕ) (i : Int) (h1 : -(n : Int) ≤ i) (h2 : i < n) :
    pyIdxOf n i < n := by
  unfold pyIdxOf
  split <;> omega

lemma hasPos_replacePos (t t2 : Soup) (p : Pos) (v : String)
    (h : replacePos t p v = some t2) : ∀ q, hasPos t2 q = hasPos t q := by
  intro q
  unfold replacePos at h
  split at h
  · simp only [Option.some_inj] at h
    subst h
    unfold hasPos
    rw [List.any_map]
    have hfun : ((fun kv : Pos × String => decide (kv.1 = q)) ∘
        (fun kv : Pos × String => if kv.1 = p then (p, v) else kv)) =
        (fun kv : Pos × String => decide (kv.1 = q)) := by
      funext kv
      by_cases hkv : kv.1 = p <;> simp [hkv]
    rw [hfun]
  · cases h

lemma applyShreds_ok_iff (g : InlineGroup) (n : ℕ)
    (hc : g.cids.length = n) (he : g.elements.length = n) :
    ∀ (d : List (String × String)) (tree : Soup),
      (∀ j, j < n → ∀ e c, g.elements[j]? = some e → g.cids[j]? = some c →
        hasPos tree (e, c) = true) →
      ((applyShreds g tree d).1 = Except.ok () ↔
        ∀ kv ∈ d, ∃ i : Int, pyToInt kv.1 = some i ∧ -(n : Int) ≤ i ∧ i < n) := by
  intro d
  induction d with
  | nil =>
    intro tree _
    simp [applyShreds]
  | cons kv rest ih =>
    intro tree hpos
    cases hk : pyToInt kv.1 with
    | none =>
      constructor
      · intro h
        exfalso
        simp [applyShreds, hk] at h
      · intro h
        exfalso
        obtain ⟨i, hi, -, -⟩ := h kv (List.mem_cons_self _ _)
        rw [hk] at hi
        cases hi
    | some ik =>
      by_cases hrange : -(n : Int) ≤ ik ∧ ik < n
      · have hjlt : pyIdxOf n ik < n := pyIdxOf_lt n ik hrange.1 hrange.2
        obtain ⟨cid, hcid⟩ : ∃ c, g.cids[pyIdxOf n ik]? = some c :=
          ⟨_, List.getElem?_eq_getElem (by omega)⟩
        obtain ⟨ele, hele⟩ : ∃ e, g.elements[pyIdxOf n ik]? = some e :=
          ⟨_, List.getElem?_eq_getElem (by omega)⟩
        have hcid2 : pyIndex g.cids ik = some cid := by
          rw [pyIndex_eq, hc, if_pos hrange]
          exact hcid
        have hele2 : pyIndex g.elements ik = some ele := by
          rw [pyIndex_eq, he, if_pos hrange]
          exact hele
        have hhas : hasPos tree (ele, cid) = true :=
          hpos (pyIdxOf n ik) hjlt ele cid hele hcid
        obtain ⟨tree2, hrep⟩ : ∃ t2, replacePos tree (ele, cid) kv.2 = some t2 := by
          unfold replacePos
          rw [if_pos hhas]
          exact ⟨_, rfl⟩
        have hpos2 : ∀ j, j < n → ∀ e c, g.elements[j]? = some e →
            g.cids[j]? = some c → hasPos tree2 (e, c) = true := by
          intro j hj e c h1 h2
          rw [hasPos_replacePos tree tree2 (ele, cid) kv.2 hrep]
          exact hpos j hj e c h1 h2
        have hstep : applyShreds g tree (kv :: rest) = applyShreds g tree2 rest := by
          simp [applyShreds, hk, hcid2, hele2, hrep]
        rw [hstep, ih tree2 hpos2, List.forall_mem_cons]
        constructor
        · exact fun h => ⟨⟨ik, hk, hrange.1, hrange.2⟩, h⟩
        · exact fun h => h.2
      · have hnone : pyIndex g.cids ik = none := by
          rw [pyIndex_eq, hc, if_neg hrange]
        constructor
        · intro h
          exfalso
          simp [applyShreds, hk, hnone] at h
        · intro h
          exfalso
          obtain ⟨i, hi, h1, h2⟩ := h kv (List.mem_cons_self _ _)
          rw [hk] at hi
          obtain rfl : ik = i := Option.some_inj.mp hi
          exact hrange ⟨h1, h2⟩

/-- Amended C10: `restruct` retains every attempt that decodes to a
non-empty mapping and survives validation's key sort, regardless of its
score (in particular the score-0 shred-count-mismatch candidates), and its
apply loop indexes `group.cids[int(k)]` and `group.elements[int(k)]` with
no bounds check beyond Python list indexing itself; for a selected
candidate it returns a status without raising *exactly* when every key
parses as an integer in `[-len(group), len(group))` — negative keys index
from the end (the original claim's `[0, len(group))` precondition is
refuted by `C10_counterexample`). -/
theorem C10_restruct_apply_indexing (sim : String → String → ℚ) (g : InlineGroup)
    (tree : Soup) (trans : String) (att : ℕ → Option (List (String × String)))
    (hc : g.cids.length = g.text_shreds.length)
    (he : g.elements.length = g.text_shreds.length)
    (hpos : ∀ j, j < g.text_shreds.length → ∀ e c,
      g.elements[j]? = some e → g.cids[j]? = some c → hasPos tree (e, c) = true) :
    (∀ i d sc err rem, att i = some d → d.isEmpty = false →
      validate_fit_in sim (shredsIn g) trans d = Except.ok (sc, err) →
      (sc, d) ∈ restructGo sim (shredsIn g) trans att rem i) ∧
    (∀ sc d, pyMaxByScore (restructCandidates sim g trans att) = some (sc, d) →
      ((∃ st t2, restruct sim g tree trans att = (Except.ok st, t2)) ↔
        ∀ kv ∈ d, ∃ i : Int, pyToInt kv.1 = some i ∧
          -(g.text_shreds.length : Int) ≤ i ∧ i < g.text_shreds.length)) := by
  constructor
  · intro i d sc err rem hai hde hval
    cases rem with
    | zero =>
      simp [restructGo, hai, hde, hval]
    | succ rem =>
      simp only [restructGo, hai, hde, hval, Bool.false_eq_true, if_false]
      exact List.mem_cons_self _ _
  · intro sc d hmax
    have hiff := applyShreds_ok_iff g g.text_shreds.length hc he d tree hpos
    have hres_eq : restruct sim g tree trans att =
        match (applyShreds g tree d).1 with
        | Except.ok _ => (Except.ok (if sc < 1 then 'C' else 'S'), (applyShreds g tree d).2)
        | Except.error e => (Except.error e, (applyShreds g tree d).2) := by
      unfold restruct
      rw [hmax]
    constructor
    · rintro ⟨st, t2, hres⟩
      rw [hres_eq] at hres
      cases hap : (applyShreds g tree d).1 with
      | ok u =>
        cases u
        exact hiff.mp hap
      | error e =>
        rw [hap] at hres
        simp at hres
    · intro hall
      have hok := hiff.mpr hall
      refine ⟨if sc < 1 then 'C' else 'S', (applyShreds g tree d).2, ?_⟩
      rw [hres_eq, hok]

/-- Witness for the amended C10: the negative key `"-1"` lies in
`[-2, 2)`, so `restruct` returns a status without raising. -/
theorem C10_restruct_apply_indexing_witness :
    ∃ st t2, restruct simEq gC9 treeC9 "XY" attC10 = (Except.ok st, t2) := by
  have hpos : ∀ j, j < gC9.text_shreds.length → ∀ e c,
      gC9.elements[j]? = some e → gC9.cids[j]? = some c →
      hasPos treeC9 (e, c) = true := by
    intro j hj e c h1 h2
    have hj2 : j < 2 := by simpa [gC9] using hj
    interval_cases j <;> simp_all [gC9] <;> subst_vars <;> decide
  have h := (C10_restruct_apply_indexing simEq gC9 treeC9 "XY" attC10
    (by rfl) (by rfl) hpos).2 0 [("0", "x"), ("-1", "y")] (by rfl)
  refine h.mpr ?_
  intro kv hkv
  rcases List.mem_pair.mp hkv with h1 | h1
  · exact ⟨0, by rw [h1]; rfl, by decide, by decide⟩
  · exact ⟨-1, by rw [h1]; rfl, by decide, by decide⟩

lemma segLoop_flatten (token_counter : String → ℕ) (max_token len_seg : ℕ) :
    ∀ (l : List (String × InlineGroup)) ret seg token_cnt cnt,
      ((segLoop token_counter max_token len_seg l ret seg token_cnt cnt).map
          (fun s => s.map Prod.snd)).flatten =
        ((ret.map (fun s => s.map Prod.snd)).flatten ++ seg.map Prod.snd) ++
          (l.map Prod.snd).filter (fun g => token_counter (strGroup g) ≤ max_token) := by
  intro l
  induction l with
  | nil =>
    intro ret seg token_cnt cnt
    simp [segLoop]
  | cons kv rest ih =>
    intro ret seg token_cnt cnt
    obtain ⟨k, g⟩ := kv
    by_cases hn : token_counter (strGroup g) > max_token
    · have hf : (token_counter (strGroup g) ≤ max_token) = False := by
        simp; omega
      simp only [segLoop, if_pos hn]
      rw [ih]
      simp [List.filter_cons, hf]
    · have hf : decide (token_counter (strGroup g) ≤ max_token) = true := by
        simp; omega
      by_cases hcl : token_cnt > len_seg ∧ seg ≠ []
      · simp only [segLoop, if_neg hn, if_pos hcl]
        rw [ih]
        simp [List.filter_cons, hf, List.append_assoc]
      · simp only [segLoop, if_neg hn, if_neg hcl]
        rw [ih]
        simp [List.filter_cons, hf, List.append_assoc]

/-- Claim C6: `segment_groups_map` returns an empty list when the total
token count over all groups is zero; otherwise the concatenation of the
returned segments is exactly the subsequence of groups whose own token
count does not exceed `max_token`, in the original relative order — so
every non-oversized group lies in exactly one segment and every oversized
group in none.  (`0 < max_token` reflects that the Python code divides by
`max_token`.) -/
theorem C6_segmenter (gm : List (String × InlineGroup)) (max_token : ℕ)
    (token_counter : String → ℕ) (hmt : 0 < max_token) :
    (tokensAll token_counter gm = 0 → segment_groups_map gm max_token token_counter = []) ∧
    (tokensAll token_counter gm ≠ 0 →
      ((segment_groups_map gm max_token token_counter).map
          (fun seg => seg.map Prod.snd)).flatten =
        (gm.map Prod.snd).filter
          (fun g => token_counter (strGroup g) ≤ max_token)) := by
  constructor
  · intro h
    simp [segment_groups_map, h]
  · intro h
    simp only [segment_groups_map, if_neg h]
    simpa using segLoop_flatten token_counter max_token _ gm [] [] 0 0

/-- Witness for C6 at a concrete input: with budget 5, the 2-token group is
kept in exactly one segment and the 8-token group is dropped. -/
theorem C6_segmenter_witness :
    ((segment_groups_map gmC6 5 strLen).map (fun seg => seg.map Prod.snd)).flatten =
      (gmC6.map Prod.snd).filter (fun g => strLen (strGroup g) ≤ 5) := by
  exact (C6_segmenter gmC6 5 strLen (by norm_num)).2 (by decide)

lemma msShuffle {M : Type} [AddCommMonoid M] (A B S R1 C R2 : M)
    (h : A + B = S + R1) : A + (C + B + R2) = S + (C + (R1 + R2)) := by
  calc A + (C + B + R2) = (A + B) + (C + R2) := by abel
  _ = (S + R1) + (C + R2) := by rw [h]
  _ = S + (C + (R1 + R2)) := by abel

lemma travChildren_spec :
    ∀ (p : List ℕ) (inline : Bool) (cid : ℕ) (f : BForest) (st : TravSt)
      (group : List Shred),
      (travChildren p inline cid f st group).1.cnt = (keptShreds p cid st.cnt f).2 ∧
      (↑((travChildren p inline cid f st group).1.all_groups.flatten ++
          (travChildren p inline cid f st group).2) : Multiset Shred) =
        ↑(st.all_groups.flatten ++ (group ++ (keptShreds p cid st.cnt f).1)) := by
  intro p inline cid f st group
  induction p, inline, cid, f, st, group using travChildren.induct with
  | case1 p inline cid st group =>
    simp [travChildren, keptShreds]
  | case2 p inline cid rest st group s ih =>
    simpa [travChildren, keptShreds] using ih
  | case3 p inline cid rest st group s ih =>
    simpa [travChildren, keptShreds] using ih
  | case4 p inline cid rest st group s hig ih =>
    simpa [travChildren, keptShreds, hig] using ih
  | case5 p inline cid rest st group s hig ih =>
    refine ⟨?_, ?_⟩
    · have h1 := ih.1
      simp only [travChildren, keptShreds, if_neg hig]
      simpa using h1
    · have h2 := ih.2
      simp only [travChildren, keptShreds, if_neg hig]
      simp only [List.flatten_append, List.flatten_cons, List.flatten_nil, List.append_nil,
        List.nil_append, ← Multiset.coe_add, ← Multiset.cons_coe, ← Multiset.singleton_add,
        Multiset.coe_singleton] at h2 ⊢
      rw [h2]
      abel
  | case6 p inline cid rest st group ch ih =>
    simpa [travChildren, keptShreds] using ih
  | case7 p inline cid rest st group nm ch hnm inlineC res hinl ih1 ih2 =>
    have hinl2 : is_inline_ele nm = true := hinl
    unfold_let inlineC res at ih1 ih2
    rw [hinl2] at ih1 ih2
    refine ⟨?_, ?_⟩
    · simp only [travChildren, keptShreds, if_neg hnm, hinl2, if_true]
      rw [ih2.1, ih1.1]
    · have h1 := ih1.2
      have h2 := ih2.2
      rw [ih1.1] at h2
      simp only [travChildren, keptShreds, if_neg hnm, hinl2, if_true]
      simp only [List.flatten_append, List.flatten_cons, List.flatten_nil, List.append_nil,
        List.nil_append, ← Multiset.coe_add, ← Multiset.cons_coe, ← Multiset.singleton_add,
        Multiset.coe_singleton] at h1 h2 ⊢
      rw [h2]
      exact msShuffle _ _ _ _ _ _ h1
  | case8 p inline cid rest st group nm ch hnm inlineC res hninl st2 hflush ih1 ih2 =>
    have hninl2 : ¬ is_inline_ele nm = true := hninl
    unfold_let inlineC res st2 at ih1 ih2
    have hst2cnt :
        (if (travChildren (p ++ [cid]) (is_inline_ele nm) 0 ch st []).2 ≠ [] then
          TravSt.mk (travChildren (p ++ [cid]) (is_inline_ele nm) 0 ch st []).1.cnt
            ((travChildren (p ++ [cid]) (is_inline_ele nm) 0 ch st []).1.all_groups ++
              [(travChildren (p ++ [cid]) (is_inline_ele nm) 0 ch st []).2])
          else (travChildren (p ++ [cid]) (is_inline_ele nm) 0 ch st []).1).cnt =
        (travChildren (p ++ [cid]) (is_inline_ele nm) 0 ch st []).1.cnt := by
      split <;> rfl
    have hst2ms :
        (↑((if (travChildren (p ++ [cid]) (is_inline_ele nm) 0 ch st []).2 ≠ [] then
          TravSt.mk (travChildren (p ++ [cid]) (is_inline_ele nm) 0 ch st []).1.cnt
            ((travChildren (p ++ [cid]) (is_inline_ele nm) 0 ch st []).1.all_groups ++
              [(travChildren (p ++ [cid]) (is_inline_ele nm) 0 ch st []).2])
          else (travChildren (p ++ [cid]) (is_inline_ele nm) 0 ch st []).1).all_groups.flatten) :
          Multiset Shred) =
        ↑(travChildren (p ++ [cid]) (is_inline_ele nm) 0 ch st []).1.all_groups.flatten +
          ↑(travChildren (p ++ [cid]) (is_inline_ele nm) 0 ch st []).2 := by
      split
      · simp only [List.flatten_append, List.flatten_cons, List.flatten_nil, List.append_nil,
          ← Multiset.coe_add]
      · rename_i hres2
        simp only [ne_eq, not_not] at hres2
        simp [hres2]
    rw [ih1.1] at ih2 hst2cnt hst2ms
    refine ⟨?_, ?_⟩
    · simp only [travChildren, keptShreds, if_neg hnm, if_neg hninl2, if_pos hflush]
      rw [ih1.1, ih2.1]
      dsimp only
      rw [hst2cnt]
    · have h1 := ih1.2
      have h2 := ih2.2
      simp only [travChildren, keptShreds, if_neg hnm, if_neg hninl2, if_pos hflush]
      rw [ih1.1, h2]
      dsimp only
      rw [hst2cnt]
      simp only [List.flatten_append, List.flatten_cons, List.flatten_nil, List.append_nil,
        List.nil_append, ← Multiset.coe_add, ← Multiset.cons_coe, ← Multiset.singleton_add,
        Multiset.coe_singleton] at h1 ⊢
      rw [hst2ms, h1]
      abel
  | case9 p inline cid rest st group nm ch hnm inlineC res hninl st2 hnoflush ih1 ih2 =>
    have hninl2 : ¬ is_inline_ele nm = true := hninl
    unfold_let inlineC res st2 at ih1 ih2
    have hst2cnt :
        (if (travChildren (p ++ [cid]) (is_inline_ele nm) 0 ch st []).2 ≠ [] then
          TravSt.mk (travChildren (p ++ [cid]) (is_inline_ele nm) 0 ch st []).1.cnt
            ((travChildren (p ++ [cid]) (is_inline_ele nm) 0 ch st []).1.all_groups ++
              [(travChildren (p ++ [cid]) (is_inline_ele nm) 0 ch st []).2])
          else (travChildren (p ++ [cid]) (is_inline_ele nm) 0 ch st []).1).cnt =
        (travChildren (p ++ [cid]) (is_inline_ele nm) 0 ch st []).1.cnt := by
      split <;> rfl
    have hst2ms :
        (↑((if (travChildren (p ++ [cid]) (is_inline_ele nm) 0 ch st []).2 ≠ [] then
          TravSt.mk (travChildren (p ++ [cid]) (is_inline_ele nm) 0 ch st []).1.cnt
            ((travChildren (p ++ [cid]) (is_inline_ele nm) 0 ch st []).1.all_groups ++
              [(travChildren (p ++ [cid]) (is_inline_ele nm) 0 ch st []).2])
          else (travChildren (p ++ [cid]) (is_inline_ele nm) 0 ch st []).1).all_groups.flatten) :
          Multiset Shred) =
        ↑(travChildren (p ++ [cid]) (is_inline_ele nm) 0 ch st []).1.all_groups.flatten +
          ↑(travChildren (p ++ [cid]) (is_inline_ele nm) 0 ch st []).2 := by
      split
      · simp only [List.flatten_append, List.flatten_cons, List.flatten_nil, List.append_nil,
          ← Multiset.coe_add]
      · rename_i hres2
        simp only [ne_eq, not_not] at hres2
        simp [hres2]
    rw [ih1.1] at ih2 hst2cnt hst2ms
    refine ⟨?_, ?_⟩
    · simp only [travChildren, keptShreds, if_neg hnm, if_neg hninl2, if_neg hnoflush]
      rw [ih1.1, ih2.1]
      rw [hst2cnt]
    · have h1 := ih1.2
      have h2 := ih2.2
      simp only [travChildren, keptShreds, if_neg hnm, if_neg hninl2, if_neg hnoflush]
      rw [ih1.1, h2]
      rw [hst2cnt]
      simp only [List.flatten_append, List.flatten_cons, List.flatten_nil, List.append_nil,
        List.nil_append, ← Multiset.coe_add, ← Multiset.cons_coe, ← Multiset.singleton_add,
        Multiset.coe_singleton] at h1 ⊢
      rw [hst2ms, h1]
      abel

lemma keptShreds_counters :
    ∀ (p : List ℕ) (cid cnt : ℕ) (f : BForest),
      (keptShreds p cid cnt f).2 = cnt + (keptShreds p cid cnt f).1.length ∧
      (keptShreds p cid cnt f).1.map Shred.counter =
        List.range' cnt (keptShreds p cid cnt f).1.length := by
  intro p cid cnt f
  induction p, cid, cnt, f using keptShreds.induct with
  | case1 p cid cnt =>
    simp [keptShreds]
  | case2 p cid cnt rest s ih =>
    simpa [keptShreds] using ih
  | case3 p cid cnt rest s ih =>
    simpa [keptShreds] using ih
  | case4 p cid cnt rest s hig ih =>
    simpa [keptShreds, hig] using ih
  | case5 p cid cnt rest s hig ih =>
    refine ⟨?_, ?_⟩
    · simp only [keptShreds, if_neg hig, List.length_cons]
      omega
    · simp only [keptShreds, if_neg hig, List.map_cons, List.length_cons]
      rw [ih.2, List.range'_succ]
  | case6 p cid cnt rest ch ih =>
    simpa [keptShreds] using ih
  | case7 p cid cnt rest nm ch hnm r1 ihc ihr =>
    unfold_let r1 at ihr
    refine ⟨?_, ?_⟩
    · simp only [keptShreds, if_neg hnm, List.length_append]
      have h1 := ihc.1
      have h2 := ihr.1
      omega
    · simp only [keptShreds, if_neg hnm, List.map_append, List.length_append]
      rw [ihc.2, ihr.2, ihc.1]
      have hr := List.range'_append cnt (keptShreds (p ++ [cid]) 0 cnt ch).1.length
        (keptShreds p (cid + 1) (cnt + (keptShreds (p ++ [cid]) 0 cnt ch).1.length)
          rest).1.length 1
      simp only [one_mul] at hr
      rw [Nat.add_comm (keptShreds (p ++ [cid]) 0 cnt ch).1.length
        (keptShreds p (cid + 1) (cnt + (keptShreds (p ++ [cid]) 0 cnt ch).1.length)
          rest).1.length]
      exact hr

/-- Amended C7: for every markup tree whose root element is block-level,
the shreds collected over all extracted groups are a permutation of the
kept text leaves (`keptShreds`: the non-ignorable text leaves outside
comments, doctypes and `script` subtrees, in document order), and the kept
leaves' discovery counters are pairwise distinct — so every text leaf not
filtered as ignorable whitespace belongs to exactly one extracted group,
and every whitespace-only text node appears in no group (it is absent from
`keptShreds` by construction; the extractor never mutates the tree, it
only reads it).  The block-root hypothesis is forced by
`C7_counterexample`: an inline root's trailing group is discarded. -/
theorem C7_extract_partition (name : String) (children : BForest)
    (hb : is_inline_ele name = false) :
    ((extractGroups name children).flatten).Perm (keptShreds [] 0 0 children).1 ∧
    ((keptShreds [] 0 0 children).1.map Shred.counter).Nodup := by
  constructor
  · have hspec := (travChildren_spec [] (is_inline_ele name) 0 children (TravSt.mk 0 []) []).2
    have hsort : (extractGroups name children).Perm
        ((if is_inline_ele name = false ∧
            (travChildren [] (is_inline_ele name) 0 children (TravSt.mk 0 []) []).2 ≠ [] then
          TravSt.mk (travChildren [] (is_inline_ele name) 0 children (TravSt.mk 0 []) []).1.cnt
            ((travChildren [] (is_inline_ele name) 0 children (TravSt.mk 0 []) []).1.all_groups ++
              [(travChildren [] (is_inline_ele name) 0 children (TravSt.mk 0 []) []).2])
          else
            (travChildren [] (is_inline_ele name) 0 children (TravSt.mk 0 []) []).1).all_groups) :=
      List.perm_insertionSort _ _
    have hst : (↑((if is_inline_ele name = false ∧
            (travChildren [] (is_inline_ele name) 0 children (TravSt.mk 0 []) []).2 ≠ [] then
          TravSt.mk (travChildren [] (is_inline_ele name) 0 children (TravSt.mk 0 []) []).1.cnt
            ((travChildren [] (is_inline_ele name) 0 children (TravSt.mk 0 []) []).1.all_groups ++
              [(travChildren [] (is_inline_ele name) 0 children (TravSt.mk 0 []) []).2])
          else
            (travChildren [] (is_inline_ele name) 0 children
              (TravSt.mk 0 []) []).1).all_groups.flatten) : Multiset Shred) =
        ↑(keptShreds [] 0 0 children).1 := by
      split
      · simp only [List.flatten_append, List.flatten_cons, List.flatten_nil, List.append_nil,
          ← Multiset.coe_add]
        simpa using hspec
      · rename_i hcond
        have hres2 : (travChildren [] (is_inline_ele name) 0 children (TravSt.mk 0 []) []).2 = [] := by
          by_contra hx
          exact hcond ⟨hb, hx⟩
        rw [hres2] at hspec
        simpa using hspec
    exact (hsort.flatten).trans (Multiset.coe_eq_coe.mp hst)
  · rw [(keptShreds_counters [] 0 0 children).2]
    exact List.nodup_range' 0 _

/-- Counterexample to C7 as stated for *every* markup tree: with an inline
root element (`span`), the top-level `traversal(element)` call's returned
group is discarded, so the kept text leaf `"Hello"` belongs to no group. -/
theorem C7_counterexample :
    get_text_group_inline "span" (BForest.cons (BNode.text "Hello") BForest.nil) = [] ∧
    (keptShreds [] 0 0 (BForest.cons (BNode.text "Hello") BForest.nil)).1 ≠ [] := by
  exact ⟨rfl, by decide⟩

/-- Witness for the amended C7 at a concrete block-rooted input. -/
theorem C7_extract_partition_witness :
    ((extractGroups "div" fC7).flatten).Perm (keptShreds [] 0 0 fC7).1 ∧
    ((keptShreds [] 0 0 fC7).1.map Shred.counter).Nodup :=
  C7_extract_partition "div" fC7 (by decide)

lemma gatherFit_length (sim : String → String → ℚ)
    (attFor : String → ℕ → Option (List (String × String))) :
    ∀ (ts : List (String × InlineGroup × String)) (tree : Soup),
      (gatherFit sim attFor tree ts).1.length = ts.length := by
  intro ts
  induction ts with
  | nil =>
    intro tree
    rfl
  | cons t rest ih =>
    intro tree
    obtain ⟨k, g, trans⟩ := t
    simp only [gatherFit, List.length_cons]
    rw [ih]

lemma resolveTasks_length (gm : List (String × InlineGroup)) :
    ∀ out tasks, resolveTasks gm out = Except.ok tasks → tasks.length = out.length := by
  intro out
  induction out with
  | nil =>
    intro tasks h
    simp only [resolveTasks, Except.ok.injEq] at h
    rw [← h]
    rfl
  | cons kv rest ih =>
    intro tasks h
    obtain ⟨k, trans⟩ := kv
    simp only [resolveTasks] at h
    cases hlk : lookupKey gm k with
    | none =>
      rw [hlk] at h
      cases h
    | some g =>
      rw [hlk] at h
      cases hrt : resolveTasks gm rest with
      | error e =>
        rw [hrt] at h
        cases h
      | ok ts =>
        rw [hrt] at h
        simp only [Except.ok.injEq] at h
        rw [← h]
        simp [ih ts hrt]

/-- Amended C1: a failure inside an individual group's fit-in task is
captured as that group's entry of the result list without aborting
siblings (the gather with `return_exceptions=True` returns one entry per
decoded key, for *every* oracle, so per-task failures never shorten the
list); but a parse failure of the primary translation response raises
`AttributeError` out of the segment task, and because the top-level gather
does not isolate exceptions, a raising segment task aborts the whole
pipeline instead of yielding per-group `Fail` statuses; a group whose key
is missing from the decoded response receives no status at all. -/
theorem C1_segment_isolation_and_pipeline_abort (sim : String → String → ℚ)
    (gm : List (String × InlineGroup)) (tree : Soup)
    (attFor : String → ℕ → Option (List (String × String))) :
    (translate_groups sim gm tree none attFor = Except.error PyErr.attributeError) ∧
    (∀ out tasks, resolveTasks gm out = Except.ok tasks →
      translate_groups sim gm tree (some out) attFor =
        Except.ok (gatherFit sim attFor tree tasks) ∧
      (gatherFit sim attFor tree tasks).1.length = out.length) ∧
    (∀ (name : String) (children : BForest) (maxTok : ℕ) (tc : String → ℕ)
        (parsedFor : ℕ → Option (List (String × String)))
        (aF : ℕ → String → ℕ → Option (List (String × String)))
        (seg : List (String × InlineGroup))
        (rest : List (List (String × InlineGroup))) (e : PyErr),
      segment_groups_map (get_text_group_inline name children) maxTok tc = seg :: rest →
      translate_groups sim seg (treeOf children) (parsedFor 0) (aF 0) = Except.error e →
      translation_pipeline sim name children maxTok tc parsedFor aF = Except.error e) := by
  refine ⟨rfl, ?_, ?_⟩
  · intro out tasks h
    constructor
    · simp only [translate_groups, h]
    · rw [gatherFit_length]
      exact resolveTasks_length gm out tasks h
  · intro name children maxTok tc parsedFor aF seg rest e hseg htg
    simp only [translation_pipeline, hseg, gatherSegs, htg]

/-- Witness for the amended C1: a decoded response with the one key "0"
resolves to one task and the gather yields exactly one status entry. -/
theorem C1_segment_isolation_witness :
    translate_groups simEq gmC1 treeC1 (some [("0", "xy")]) attForC1 =
      Except.ok (gatherFit simEq attForC1 treeC1 [("0", gC1, "xy")]) ∧
    (gatherFit simEq attForC1 treeC1 [("0", gC1, "xy")]).1.length = 1 := by
  have h := (C1_segment_isolation_and_pipeline_abort simEq gmC1 treeC1 attForC1).2.1
    [("0", "xy")] [("0", gC1, "xy")] (by rfl)
  exact ⟨h.1, h.2⟩

/-- Counterexample to C1: a pipeline over a one-group document whose
primary translation response fails to decode does not return a status for
the group — it aborts with the `AttributeError` raised by
`None.items()`. -/
theorem C1_counterexample :
    translation_pipeline simEq "div" (BForest.cons (BNode.text "hi") BForest.nil) 100
      (fun s => s.length) (fun _ => none) (fun _ _ _ => none) =
      Except.error PyErr.attributeError := by
  rfl
